import Mathlib

/-
  Verification of the flood-risk-weighted routing engine of
  `public/models/chennai_safe_shortest_path_with_map.py`.

  The Python source works on machine floats; the embedding models the
  arithmetic over the reals.  Network I/O (the Overpass query) is an external
  collaborator: the parsed response — a node-id ↦ coordinate mapping and a
  list of ways — is an explicit input of the embedded Graph Builder, exactly
  the shape the source extracts from `data["elements"]` before any graph
  work happens.
-/

namespace FloodGuard

/-- Two-argument arctangent on the reals, modelling Python `math.atan2 y x`
(quadrant-aware, `atan2 0 0 = 0`). -/
noncomputable def atan2 (y x : ℝ) : ℝ :=
  if 0 < x then Real.arctan (y / x)
  else if x < 0 then
    (if 0 ≤ y then Real.arctan (y / x) + Real.pi else Real.arctan (y / x) - Real.pi)
  else if 0 < y then Real.pi / 2
  else if y < 0 then -(Real.pi / 2)
  else 0

/-- Python `math.radians`: degrees to radians. -/
noncomputable def radians (x : ℝ) : ℝ := x * (Real.pi / 180)

/-- The haversine intermediate `a` of `haversine_km` (source line 45):
`a = sin(d_lat/2)**2 + cos(radians(lat1))*cos(radians(lat2))*sin(d_lon/2)**2`
with `d_lat = radians(lat2 - lat1)` and `d_lon = radians(lon2 - lon1)`. -/
noncomputable def hav_a (lat1 lon1 lat2 lon2 : ℝ) : ℝ :=
  Real.sin (radians (lat2 - lat1) / 2) ^ 2 +
    Real.cos (radians lat1) * Real.cos (radians lat2) *
      Real.sin (radians (lon2 - lon1) / 2) ^ 2

/-- Source function `haversine_km` (lines 38–47): great-circle distance in km with
Earth radius `R = 6371`; `c = 2 * atan2(sqrt(a), sqrt(1-a))`, result `R * c`. -/
noncomputable def haversine_km (lat1 lon1 lat2 lon2 : ℝ) : ℝ :=
  6371 * (2 * atan2 (Real.sqrt (hav_a lat1 lon1 lat2 lon2))
                    (Real.sqrt (1 - hav_a lat1 lon1 lat2 lon2)))

lemma arctan_nonneg_of_nonneg {z : ℝ} (hz : 0 ≤ z) : 0 ≤ Real.arctan z := by
  have h := Real.arctan_strictMono.monotone hz
  rwa [Real.arctan_zero] at h

lemma atan2_nonneg (y x : ℝ) (hy : 0 ≤ y) : 0 ≤ atan2 y x := by
  unfold atan2
  rcases lt_trichotomy 0 x with hx | hx | hx
  · rw [if_pos hx]
    exact arctan_nonneg_of_nonneg (div_nonneg hy hx.le)
  · rw [if_neg (by rw [← hx]; exact lt_irrefl 0), if_neg (by rw [← hx]; exact lt_irrefl 0)]
    rcases lt_or_eq_of_le hy with hy' | hy'
    · rw [if_pos hy']
      positivity
    · rw [if_neg (by rw [← hy']; exact lt_irrefl 0), if_neg (by rw [← hy']; exact lt_irrefl 0)]
  · rw [if_neg (asymm hx), if_pos hx, if_pos hy]
    have h1 := Real.neg_pi_div_two_lt_arctan (y / x)
    have h2 := Real.pi_pos
    linarith

lemma haversine_nonneg (lat1 lon1 lat2 lon2 : ℝ) :
    0 ≤ haversine_km lat1 lon1 lat2 lon2 := by
  unfold haversine_km
  have h := atan2_nonneg (Real.sqrt (hav_a lat1 lon1 lat2 lon2))
    (Real.sqrt (1 - hav_a lat1 lon1 lat2 lon2))
    (Real.sqrt_nonneg _)
  nlinarith

lemma hav_a_self (lat lon : ℝ) : hav_a lat lon lat lon = 0 := by
  unfold hav_a radians
  simp

lemma haversine_self (lat lon : ℝ) : haversine_km lat lon lat lon = 0 := by
  unfold haversine_km
  rw [hav_a_self]
  norm_num [atan2, Real.arctan_zero]

lemma hav_a_symm (lat1 lon1 lat2 lon2 : ℝ) :
    hav_a lat1 lon1 lat2 lon2 = hav_a lat2 lon2 lat1 lon1 := by
  unfold hav_a
  have h : ∀ u v : ℝ, Real.sin (radians (u - v) / 2) ^ 2
      = Real.sin (radians (v - u) / 2) ^ 2 := by
    intro u v
    have hneg : radians (u - v) / 2 = -(radians (v - u) / 2) := by
      unfold radians; ring
    rw [hneg, Real.sin_neg]
    ring
  rw [h lat2 lat1, h lon2 lon1, mul_comm (Real.cos (radians lat1))]

lemma haversine_symm (lat1 lon1 lat2 lon2 : ℝ) :
    haversine_km lat1 lon1 lat2 lon2 = haversine_km lat2 lon2 lat1 lon1 := by
  unfold haversine_km
  rw [hav_a_symm]

/-- C9: the great-circle distance function is symmetric, `distance(a,b) =
distance(b,a)`, and vanishes on equal endpoints, `distance(a,a) = 0`. -/
theorem haversine_symm_and_self_zero (lat1 lon1 lat2 lon2 : ℝ) :
    haversine_km lat1 lon1 lat2 lon2 = haversine_km lat2 lon2 lat1 lon1 ∧
    haversine_km lat1 lon1 lat1 lon1 = 0 :=
  ⟨haversine_symm lat1 lon1 lat2 lon2, haversine_self lat1 lon1⟩

/-- Source function `min_distance_to_flood` (lines 50–51):
`min(haversine_km(lat, lon, f[0], f[1]) for f in flood_points)`.
Python `min` keeps the first minimum of the generated sequence; on an empty
sequence it raises `ValueError`.  The builder fails on an empty hazard set
before ever calling this, so the `[]` case below is unreachable from the
embedded pipeline; it is given a junk value `0`. -/
noncomputable def min_distance_to_flood (lat lon : ℝ) : List (ℝ × ℝ) → ℝ
  | [] => 0
  | f :: fs =>
    fs.foldl (fun m g => min m (haversine_km lat lon g.1 g.2))
      (haversine_km lat lon f.1 f.2)

lemma min_distance_nonneg (lat lon : ℝ) (fps : List (ℝ × ℝ)) :
    0 ≤ min_distance_to_flood lat lon fps := by
  cases fps with
  | nil => exact le_refl 0
  | cons f fs =>
    show 0 ≤ fs.foldl (fun m g => min m (haversine_km lat lon g.1 g.2))
      (haversine_km lat lon f.1 f.2)
    have key : ∀ (l : List (ℝ × ℝ)) (init : ℝ), 0 ≤ init →
        0 ≤ l.foldl (fun m g => min m (haversine_km lat lon g.1 g.2)) init := by
      intro l
      induction l with
      | nil => intro init h; simpa using h
      | cons g gs ih =>
        intro init h
        exact ih _ (le_min h (haversine_nonneg lat lon g.1 g.2))
    exact key fs _ (haversine_nonneg lat lon f.1 f.2)

/-- The per-edge risk (source line 124):
`risk = 0 if d_min >= max_risk_dist_km else (1 - d_min/max_risk_dist_km)`. -/
noncomputable def flood_risk (max_risk_dist_km d_min : ℝ) : ℝ :=
  if max_risk_dist_km ≤ d_min then 0 else 1 - d_min / max_risk_dist_km

lemma flood_risk_nonneg {d : ℝ} (m : ℝ) (hd : 0 ≤ d) : 0 ≤ flood_risk m d := by
  unfold flood_risk
  split_ifs with h
  · exact le_refl 0
  · have hm : d < m := not_le.mp h
    have hmpos : 0 < m := lt_of_le_of_lt hd hm
    have : d / m < 1 := (div_lt_one hmpos).mpr hm
    linarith

lemma flood_risk_le_one {d : ℝ} (m : ℝ) (hd : 0 ≤ d) : flood_risk m d ≤ 1 := by
  unfold flood_risk
  split_ifs with h
  · norm_num
  · have hm : d < m := not_le.mp h
    have hmpos : 0 < m := lt_of_le_of_lt hd hm
    have : 0 ≤ d / m := div_nonneg hd hmpos.le
    linarith

/-- C2: for every point and every non-empty hazard set the computed risk lies
in `[0,1]`; it is `0` when the minimum haversine distance reaches
`max_risk_dist_km`, and `1 - d_min / max_risk_dist_km` otherwise. -/
theorem risk_in_unit_interval (fps : List (ℝ × ℝ)) (hne : fps ≠ [])
    (lat lon max_risk : ℝ) :
    0 ≤ flood_risk max_risk (min_distance_to_flood lat lon fps) ∧
    flood_risk max_risk (min_distance_to_flood lat lon fps) ≤ 1 ∧
    (max_risk ≤ min_distance_to_flood lat lon fps →
      flood_risk max_risk (min_distance_to_flood lat lon fps) = 0) ∧
    (min_distance_to_flood lat lon fps < max_risk →
      flood_risk max_risk (min_distance_to_flood lat lon fps)
        = 1 - min_distance_to_flood lat lon fps / max_risk) := by
  refine ⟨flood_risk_nonneg max_risk (min_distance_nonneg lat lon fps),
    flood_risk_le_one max_risk (min_distance_nonneg lat lon fps), ?_, ?_⟩
  · intro h
    unfold flood_risk
    rw [if_pos h]
  · intro h
    unfold flood_risk
    rw [if_neg (not_le.mpr h)]

/-- C2 witness: the hazard set `[(13.05, 80.20)]` is non-empty and the risk
bounds hold for it at the query point `(13, 80)` with the default radius. -/
theorem risk_in_unit_interval_witness :
    ([((13.05 : ℝ), (80.20 : ℝ))] ≠ ([] : List (ℝ × ℝ))) ∧
    (0 ≤ flood_risk 0.5 (min_distance_to_flood 13 80 [((13.05 : ℝ), (80.20 : ℝ))]) ∧
     flood_risk 0.5 (min_distance_to_flood 13 80 [((13.05 : ℝ), (80.20 : ℝ))]) ≤ 1 ∧
     (0.5 ≤ min_distance_to_flood 13 80 [((13.05 : ℝ), (80.20 : ℝ))] →
       flood_risk 0.5 (min_distance_to_flood 13 80 [((13.05 : ℝ), (80.20 : ℝ))]) = 0) ∧
     (min_distance_to_flood 13 80 [((13.05 : ℝ), (80.20 : ℝ))] < 0.5 →
       flood_risk 0.5 (min_distance_to_flood 13 80 [((13.05 : ℝ), (80.20 : ℝ))])
         = 1 - min_distance_to_flood 13 80 [((13.05 : ℝ), (80.20 : ℝ))] / 0.5)) :=
  ⟨by simp, risk_in_unit_interval [((13.05 : ℝ), (80.20 : ℝ))] (by simp) 13 80 0.5⟩

/-- Failure kinds observable at the boundary of the embedded core.
`valueError` models an untyped Python `ValueError` with its message;
`noPathExists` models `networkx.NetworkXNoPath`; `nodeNotFound` models
`networkx.NodeNotFound`.  `emptyHazardSet`, `emptyGraph` and `invalidNode`
are the typed conditions named by the specification; the source never
produces them, which is what the error-handling claims are checked against. -/
inductive Err where
  | valueError (msg : String)
  | emptyHazardSet
  | emptyGraph
  | invalidNode
  | noPathExists
  | nodeNotFound
  deriving DecidableEq

/-- The weighted road graph: node list (id, lat, lon) in insertion order, and
edge list (u, v, length_m, weight).  Models the `networkx.Graph` the builder
returns, with the node attributes `lat`/`lon` and edge attributes
`length`/`weight`. -/
structure RoadGraph where
  nodes : List (Nat × ℝ × ℝ)
  edges : List (Nat × Nat × ℝ × ℝ)

/-- Coordinate of node `i` in the node mapping: models `nodes[i]` /
`G.nodes[i]["lat"], G.nodes[i]["lon"]`.  Ids are unique keys upstream
(Overpass node ids; `nodes` is a Python dict), and every lookup performed by
the source is guarded by membership, so the `(0, 0)` fallback is unreachable
there. -/
def node_coord (ns : List (Nat × ℝ × ℝ)) (i : Nat) : ℝ × ℝ :=
  match ns.find? (fun n => n.1 == i) with
  | some n => (n.2.1, n.2.2)
  | none => (0, 0)

/-- Membership test `a in nodes` on the node mapping. -/
def has_node (ns : List (Nat × ℝ × ℝ)) (a : Nat) : Bool :=
  ns.any (fun n => n.1 == a)

/-- Consecutive pairs of a way's node references:
`zip(refs[:-1], refs[1:])` (source line 105). -/
def way_pairs : List Nat → List (Nat × Nat)
  | a :: b :: rest => (a, b) :: way_pairs (b :: rest)
  | _ => []

/-- Model of `G.add_edge(a, b, length=l)` on an undirected `networkx.Graph`: if an
edge already joins the unordered pair `{a, b}`, its attribute is overwritten
in place (keeping the stored orientation), otherwise the edge is appended. -/
def add_edge (es : List (Nat × Nat × ℝ)) (a b : Nat) (l : ℝ) :
    List (Nat × Nat × ℝ) :=
  match es with
  | [] => [(a, b, l)]
  | e :: rest =>
    if (e.1 = a ∧ e.2.1 = b) ∨ (e.1 = b ∧ e.2.1 = a) then
      (e.1, e.2.1, l) :: rest
    else
      e :: add_edge rest a b l

/-- The physical length of the segment `a`–`b` (source line 109):
`haversine_km(lat1, lon1, lat2, lon2) * 1000` (km → m) between the stored
coordinates of the two endpoints. -/
noncomputable def seg_length (ns : List (Nat × ℝ × ℝ)) (a b : Nat) : ℝ :=
  haversine_km (node_coord ns a).1 (node_coord ns a).2
    (node_coord ns b).1 (node_coord ns b).2 * 1000

/-- The edge-building loop (source lines 103–110): for every way, for every
consecutive pair of node ids both present in the node mapping, add an edge
whose `length` is the segment length; pairs referencing unknown ids are
dropped. -/
noncomputable def build_edges (ns : List (Nat × ℝ × ℝ))
    (ways : List (List Nat)) : List (Nat × Nat × ℝ) :=
  ways.foldl (fun es refs =>
    (way_pairs refs).foldl (fun es2 p =>
      if has_node ns p.1 && has_node ns p.2 then
        add_edge es2 p.1 p.2 (seg_length ns p.1 p.2)
      else es2) es) []

/-- Risk of the edge `{u, v}` (source lines 113–124): computed from the
minimum hazard distance of the edge midpoint. -/
noncomputable def edge_risk (flood_points : List (ℝ × ℝ))
    (ns : List (Nat × ℝ × ℝ)) (max_risk_dist_km : ℝ) (u v : Nat) : ℝ :=
  flood_risk max_risk_dist_km
    (min_distance_to_flood
      (((node_coord ns u).1 + (node_coord ns v).1) / 2)
      (((node_coord ns u).2 + (node_coord ns v).2) / 2)
      flood_points)

/-- Source function `build_flood_weighted_graph_overpass` (lines 58–129).  The raw
node/way elements parsed from the Overpass response are explicit inputs (the
HTTP query itself is an external collaborator; its bounding-box parameters
`south/north/west/east` only shape that query).  On an empty hazard set the
very first step, `south = min(lats) - margin`, raises
`ValueError("min() arg is an empty sequence")` — before any edge or weight
is computed; this is the `[]` branch.  Otherwise the graph is built: all
nodes, deduplicated undirected edges with their lengths, then the per-edge
weight `length * (1 + alpha * risk)` (source line 126). -/
noncomputable def build_flood_weighted_graph_overpass
    (flood_points : List (ℝ × ℝ)) (ns : List (Nat × ℝ × ℝ))
    (ways : List (List Nat))
    (margin alpha max_risk_dist_km : ℝ) : Except Err RoadGraph :=
  match flood_points with
  | [] => Except.error (Err.valueError "min() arg is an empty sequence")
  | _ :: _ =>
    Except.ok
      { nodes := ns
        edges := (build_edges ns ways).map (fun e =>
          (e.1, e.2.1, e.2.2,
            e.2.2 * (1 + alpha *
              edge_risk flood_points ns max_risk_dist_km e.1 e.2.1))) }

/-- Edge list of a builder result (empty on failure); lets theorems speak
about every edge of a produced graph without destructing the `Except`. -/
def graphEdges : Except Err RoadGraph → List (Nat × Nat × ℝ × ℝ)
  | Except.ok g => g.edges
  | Except.error _ => []

/-- The scanning loop of `find_nearest_node` with current best node `bn` and
best distance `bd`: replace the best only on a strict improvement, so ties
keep the earlier node. -/
noncomputable def nearest_from (lat lon : ℝ) (bn : Nat) (bd : ℝ) :
    List (Nat × ℝ × ℝ) → Nat
  | [] => bn
  | n :: rest =>
    if haversine_km lat lon n.2.1 n.2.2 < bd then
      nearest_from lat lon n.1 (haversine_km lat lon n.2.1 n.2.2) rest
    else
      nearest_from lat lon bn bd rest

/-- Source function `find_nearest_node` (lines 136–146): linear scan over
`G.nodes(data=True)` starting from `best_dist = inf`.  Any real distance is
smaller than `inf`, so the first node always replaces the initial `None`
best; on a graph with no nodes the loop never runs and `None` is returned. -/
noncomputable def find_nearest_node (G : RoadGraph) (lat lon : ℝ) : Option Nat :=
  match G.nodes with
  | [] => none
  | n :: rest =>
    some (nearest_from lat lon n.1 (haversine_km lat lon n.2.1 n.2.2) rest)

/-- C6 counterexample: on an empty hazard set the builder fails with the
generic `ValueError` raised by `min()` while computing the bounding box —
not with a typed `EmptyHazardSet` error, contradicting the claim. -/
theorem empty_hazards_not_typed_error :
    build_flood_weighted_graph_overpass [] [] [] 0.02 5 0.5
      = Except.error (Err.valueError "min() arg is an empty sequence") ∧
    Err.valueError "min() arg is an empty sequence" ≠ Err.emptyHazardSet :=
  ⟨rfl, by simp⟩

/-- C6 amended: for every empty hazard set the build fails before any edge
weight is computed — but with the untyped empty-sequence `ValueError` from
the bounding-box computation, not an explicit `EmptyHazardSet` error. -/
theorem empty_hazards_fail_untyped (ns : List (Nat × ℝ × ℝ))
    (ways : List (List Nat)) (margin alpha max_risk_dist_km : ℝ) :
    build_flood_weighted_graph_overpass [] ns ways margin alpha max_risk_dist_km
      = Except.error (Err.valueError "min() arg is an empty sequence") :=
  rfl

/-- C5 counterexample: a node/way input yielding zero edges makes the builder
return a perfectly ordinary (unroutable) graph, not an `EmptyGraph` failure;
and the Nearest-Node Locator on a graph with no nodes returns no node
(Python `None`) instead of failing with `EmptyGraph`. -/
theorem empty_graph_not_signalled :
    build_flood_weighted_graph_overpass [((13.05 : ℝ), (80.20 : ℝ))]
        [(1, (13.0 : ℝ), (80.0 : ℝ))] [] 0.02 5 0.5
      = Except.ok ⟨[(1, (13.0 : ℝ), (80.0 : ℝ))], []⟩ ∧
    (Except.ok (⟨[(1, (13.0 : ℝ), (80.0 : ℝ))], []⟩ : RoadGraph)
        ≠ (Except.error Err.emptyGraph : Except Err RoadGraph)) ∧
    find_nearest_node ⟨[], []⟩ 13 80 = none :=
  ⟨rfl, by simp, rfl⟩

/-- C5 amended: the core never signals `EmptyGraph`: for any non-empty hazard
set the Graph Builder succeeds even when the input yields zero edges, it can
never return an `EmptyGraph` error, and the Nearest-Node Locator on a graph
with no nodes returns `none` (Python `None`) rather than failing. -/
theorem no_empty_graph_error :
    (∀ (fps : List (ℝ × ℝ)) (ns : List (Nat × ℝ × ℝ)) (ways : List (List Nat))
        (m a r : ℝ), fps ≠ [] →
      ∃ G, build_flood_weighted_graph_overpass fps ns ways m a r = Except.ok G) ∧
    (∀ (fps : List (ℝ × ℝ)) (ns : List (Nat × ℝ × ℝ)) (ways : List (List Nat))
        (m a r : ℝ),
      build_flood_weighted_graph_overpass fps ns ways m a r
        ≠ Except.error Err.emptyGraph) ∧
    (∀ (es : List (Nat × Nat × ℝ × ℝ)) (lat lon : ℝ),
      find_nearest_node ⟨[], es⟩ lat lon = none) := by
  refine ⟨?_, ?_, ?_⟩
  · intro fps ns ways m a r hne
    cases fps with
    | nil => exact absurd rfl hne
    | cons p ps => exact ⟨_, rfl⟩
  · intro fps ns ways m a r h
    cases fps with
    | nil => exact Except.noConfusion h (fun h' => Err.noConfusion h')
    | cons p ps => exact Except.noConfusion h
  · intro es lat lon
    rfl

/-- C5 witness: the amended behavior at a concrete input — a singleton hazard
set with an edgeless road network builds successfully. -/
theorem no_empty_graph_error_witness :
    ([((13.05 : ℝ), (80.20 : ℝ))] ≠ ([] : List (ℝ × ℝ))) ∧
    (∃ G, build_flood_weighted_graph_overpass [((13.05 : ℝ), (80.20 : ℝ))]
        [(1, (13.0 : ℝ), (80.0 : ℝ))] [] 0.02 5 0.5 = Except.ok G) :=
  ⟨by simp,
    no_empty_graph_error.1 [((13.05 : ℝ), (80.20 : ℝ))]
      [(1, (13.0 : ℝ), (80.0 : ℝ))] [] 0.02 5 0.5 (by simp)⟩

/-- Two directed id pairs describe the same undirected edge. -/
def unordered_eq (p q : Nat × Nat) : Prop :=
  (p.1 = q.1 ∧ p.2 = q.2) ∨ (p.1 = q.2 ∧ p.2 = q.1)

lemma unordered_eq_refl (p : Nat × Nat) : unordered_eq p p := Or.inl ⟨rfl, rfl⟩

lemma unordered_eq_symm {p q : Nat × Nat} (h : unordered_eq p q) :
    unordered_eq q p := by
  rcases h with ⟨h1, h2⟩ | ⟨h1, h2⟩
  · exact Or.inl ⟨h1.symm, h2.symm⟩
  · exact Or.inr ⟨h2.symm, h1.symm⟩

lemma unordered_eq_trans {p q r : Nat × Nat} (h1 : unordered_eq p q)
    (h2 : unordered_eq q r) : unordered_eq p r := by
  rcases h1 with ⟨a1, a2⟩ | ⟨a1, a2⟩ <;> rcases h2 with ⟨b1, b2⟩ | ⟨b1, b2⟩
  · exact Or.inl ⟨a1.trans b1, a2.trans b2⟩
  · exact Or.inr ⟨a1.trans b1, a2.trans b2⟩
  · exact Or.inr ⟨a1.trans b2, a2.trans b1⟩
  · exact Or.inl ⟨a1.trans b2, a2.trans b1⟩

lemma seg_length_symm (ns : List (Nat × ℝ × ℝ)) (a b : Nat) :
    seg_length ns a b = seg_length ns b a := by
  unfold seg_length
  rw [haversine_symm]

/-- Invariant of the edge list under construction: no unordered node pair is
carried by two entries, and every entry's length is the segment length of its
own endpoints. -/
def EdgesOk (ns : List (Nat × ℝ × ℝ)) (es : List (Nat × Nat × ℝ)) : Prop :=
  es.Pairwise (fun e f => ¬ unordered_eq (e.1, e.2.1) (f.1, f.2.1)) ∧
  ∀ e ∈ es, e.2.2 = seg_length ns e.1 e.2.1

lemma mem_add_edge {es : List (Nat × Nat × ℝ)} {a b : Nat} {l : ℝ}
    {f : Nat × Nat × ℝ} (hf : f ∈ add_edge es a b l) :
    f ∈ es ∨ unordered_eq (f.1, f.2.1) (a, b) := by
  induction es with
  | nil =>
    simp only [add_edge, List.mem_singleton] at hf
    subst hf
    exact Or.inr (unordered_eq_refl _)
  | cons e rest ih =>
    by_cases hc : (e.1 = a ∧ e.2.1 = b) ∨ (e.1 = b ∧ e.2.1 = a)
    · rw [add_edge, if_pos hc] at hf
      rcases List.mem_cons.mp hf with h | h
      · subst h
        exact Or.inr hc
      · exact Or.inl (List.mem_cons_of_mem _ h)
    · rw [add_edge, if_neg hc] at hf
      rcases List.mem_cons.mp hf with h | h
      · exact Or.inl (h ▸ List.mem_cons_self _ _)
      · rcases ih h with h' | h'
        · exact Or.inl (List.mem_cons_of_mem _ h')
        · exact Or.inr h'

lemma add_edge_ok {ns : List (Nat × ℝ × ℝ)} {a b : Nat}
    {es : List (Nat × Nat × ℝ)} (h : EdgesOk ns es) :
    EdgesOk ns (add_edge es a b (seg_length ns a b)) := by
  induction es with
  | nil =>
    refine ⟨List.pairwise_singleton _ _, ?_⟩
    intro e he
    simp only [add_edge, List.mem_singleton] at he
    subst he
    rfl
  | cons e rest ih =>
    obtain ⟨hpw, hval⟩ := h
    rw [List.pairwise_cons] at hpw
    by_cases hc : (e.1 = a ∧ e.2.1 = b) ∨ (e.1 = b ∧ e.2.1 = a)
    · rw [add_edge, if_pos hc]
      refine ⟨List.pairwise_cons.mpr ⟨fun f hf => hpw.1 f hf, hpw.2⟩, ?_⟩
      intro g hg
      rcases List.mem_cons.mp hg with hgr | hgr
      · subst hgr
        rcases hc with ⟨h1, h2⟩ | ⟨h1, h2⟩
        · rw [h1, h2]
        · rw [h1, h2, seg_length_symm]
      · exact hval g (List.mem_cons_of_mem _ hgr)
    · rw [add_edge, if_neg hc]
      obtain ⟨ihp, ihv⟩ := ih ⟨hpw.2, fun g hg => hval g (List.mem_cons_of_mem _ hg)⟩
      refine ⟨List.pairwise_cons.mpr ⟨?_, ihp⟩, ?_⟩
      · intro f hf
        rcases mem_add_edge hf with h' | h'
        · exact hpw.1 f h'
        · intro hef
          exact hc (unordered_eq_trans hef h')
      · intro g hg
        rcases List.mem_cons.mp hg with hgr | hgr
        · exact hgr ▸ hval e (List.mem_cons_self _ _)
        · exact ihv g hgr

lemma foldl_inv {α β : Type} (P : β → Prop) (f : β → α → β)
    (hstep : ∀ b a, P b → P (f b a)) :
    ∀ (l : List α) (b : β), P b → P (l.foldl f b) := by
  intro l
  induction l with
  | nil => intro b h; simpa using h
  | cons x xs ih =>
    intro b h
    exact ih (f b x) (hstep b x h)

lemma build_edges_ok (ns : List (Nat × ℝ × ℝ)) (ways : List (List Nat)) :
    EdgesOk ns (build_edges ns ways) := by
  unfold build_edges
  refine foldl_inv (EdgesOk ns) _ ?_ ways [] ⟨List.Pairwise.nil, by intro e he; cases he⟩
  intro es refs hes
  refine foldl_inv (EdgesOk ns) _ ?_ (way_pairs refs) es hes
  intro es2 p h2
  by_cases hc : has_node ns p.1 && has_node ns p.2
  · rw [if_pos hc]
    exact add_edge_ok h2
  · rw [if_neg hc]
    exact h2

/-- C8: in the graph used for path cost, no unordered pair of node ids
carries more than one edge (duplicate raw segments collapse onto the single
stored edge), and every stored edge's length is exactly the segment length of
its endpoints — so every duplicate segment for a pair carries that same
value, the kept edge is as cheap as any duplicate, and resolution is
deterministic (the builder is a pure function of its input). -/
theorem duplicate_segments_collapse (fps : List (ℝ × ℝ))
    (ns : List (Nat × ℝ × ℝ)) (ways : List (List Nat))
    (margin alpha max_risk_dist_km : ℝ) :
    (graphEdges (build_flood_weighted_graph_overpass fps ns ways
        margin alpha max_risk_dist_km)).Pairwise
      (fun e f => ¬ unordered_eq (e.1, e.2.1) (f.1, f.2.1)) ∧
    ∀ e ∈ graphEdges (build_flood_weighted_graph_overpass fps ns ways
        margin alpha max_risk_dist_km),
      e.2.2.1 = seg_length ns e.1 e.2.1 := by
  obtain ⟨hpw, hval⟩ := build_edges_ok ns ways
  cases fps with
  | nil => exact ⟨List.Pairwise.nil, by intro e he; cases he⟩
  | cons p ps =>
    constructor
    · exact hpw.map _ (fun a b hab h => hab h)
    · intro e he
      rcases List.mem_map.mp he with ⟨x, hx, hxe⟩
      subst hxe
      exact hval x hx

lemma seg_length_nonneg (ns : List (Nat × ℝ × ℝ)) (a b : Nat) :
    0 ≤ seg_length ns a b := by
  unfold seg_length
  have := haversine_nonneg (node_coord ns a).1 (node_coord ns a).2
    (node_coord ns b).1 (node_coord ns b).2
  linarith

lemma edge_risk_nonneg (fps : List (ℝ × ℝ)) (ns : List (Nat × ℝ × ℝ))
    (max_risk_dist_km : ℝ) (u v : Nat) :
    0 ≤ edge_risk fps ns max_risk_dist_km u v :=
  flood_risk_nonneg max_risk_dist_km (min_distance_nonneg _ _ _)

/-- C1 amended: every stored edge weight is
`length_m * (1 + alpha * risk)` with the risk computed from the edge
midpoint's minimum hazard distance; for `alpha ≥ 0` the weight never drops
below the length, and equality holds exactly when `alpha = 0`, the risk is
`0`, or the edge length is `0`. -/
theorem weight_formula_and_bound (fps : List (ℝ × ℝ))
    (ns : List (Nat × ℝ × ℝ)) (ways : List (List Nat))
    (margin alpha max_risk_dist_km : ℝ) (halpha : 0 ≤ alpha) :
    ∀ e ∈ graphEdges (build_flood_weighted_graph_overpass fps ns ways
        margin alpha max_risk_dist_km),
      e.2.2.2 = e.2.2.1 * (1 + alpha * edge_risk fps ns max_risk_dist_km e.1 e.2.1) ∧
      e.2.2.1 ≤ e.2.2.2 ∧
      (e.2.2.2 = e.2.2.1 ↔
        alpha = 0 ∨ edge_risk fps ns max_risk_dist_km e.1 e.2.1 = 0 ∨
          e.2.2.1 = 0) := by
  intro e he
  cases fps with
  | nil => cases he
  | cons p ps =>
    rcases List.mem_map.mp he with ⟨x, hx, hxe⟩
    subst hxe
    dsimp only
    obtain ⟨-, hval⟩ := build_edges_ok ns ways
    have hlen : 0 ≤ x.2.2 := (hval x hx) ▸ seg_length_nonneg ns x.1 x.2.1
    set ρ := edge_risk (p :: ps) ns max_risk_dist_km x.1 x.2.1 with hρ
    have hrisk : 0 ≤ ρ := edge_risk_nonneg _ _ _ _ _
    refine ⟨rfl, ?_, ?_⟩
    · have : 0 ≤ x.2.2 * (alpha * ρ) :=
        mul_nonneg hlen (mul_nonneg halpha hrisk)
      nlinarith
    · constructor
      · intro h
        have hz : x.2.2 * (alpha * ρ) = 0 := by nlinarith
        rcases mul_eq_zero.mp hz with h' | h'
        · exact Or.inr (Or.inr h')
        · rcases mul_eq_zero.mp h' with h'' | h''
          · exact Or.inl h''
          · exact Or.inr (Or.inl h'')
      · intro h
        rcases h with h | h | h <;> rw [h] <;> ring

/-- C1 witness: the amended statement instantiated on a concrete build whose
single edge has zero length. -/
theorem weight_formula_and_bound_witness :
    ((0 : ℝ) ≤ 5) ∧
    (∀ e ∈ graphEdges (build_flood_weighted_graph_overpass
        [((13.05 : ℝ), (80.20 : ℝ))]
        [(1, (13.05 : ℝ), (80.20 : ℝ)), (2, (13.05 : ℝ), (80.20 : ℝ))]
        [[1, 2]] 0.02 5 0.5),
      e.2.2.2 = e.2.2.1 * (1 + 5 * edge_risk [((13.05 : ℝ), (80.20 : ℝ))]
        [(1, (13.05 : ℝ), (80.20 : ℝ)), (2, (13.05 : ℝ), (80.20 : ℝ))]
        0.5 e.1 e.2.1) ∧
      e.2.2.1 ≤ e.2.2.2 ∧
      (e.2.2.2 = e.2.2.1 ↔
        (5 : ℝ) = 0 ∨ edge_risk [((13.05 : ℝ), (80.20 : ℝ))]
          [(1, (13.05 : ℝ), (80.20 : ℝ)), (2, (13.05 : ℝ), (80.20 : ℝ))]
          0.5 e.1 e.2.1 = 0 ∨ e.2.2.1 = 0)) :=
  ⟨by norm_num,
    weight_formula_and_bound [((13.05 : ℝ), (80.20 : ℝ))]
      [(1, (13.05 : ℝ), (80.20 : ℝ)), (2, (13.05 : ℝ), (80.20 : ℝ))]
      [[1, 2]] 0.02 5 0.5 (by norm_num)⟩

lemma cex_node_coord_one :
    node_coord [(1, (13.05 : ℝ), (80.20 : ℝ)), (2, (13.05 : ℝ), (80.20 : ℝ))] 1
      = ((13.05 : ℝ), (80.20 : ℝ)) := rfl

lemma cex_node_coord_two :
    node_coord [(1, (13.05 : ℝ), (80.20 : ℝ)), (2, (13.05 : ℝ), (80.20 : ℝ))] 2
      = ((13.05 : ℝ), (80.20 : ℝ)) := rfl

lemma cex_risk :
    edge_risk [((13.05 : ℝ), (80.20 : ℝ))]
      [(1, (13.05 : ℝ), (80.20 : ℝ)), (2, (13.05 : ℝ), (80.20 : ℝ))] 0.5 1 2
      = 1 := by
  unfold edge_risk
  rw [cex_node_coord_one, cex_node_coord_two]
  have hla : (((13.05 : ℝ), (80.20 : ℝ)).1 + ((13.05 : ℝ), (80.20 : ℝ)).1) / 2
      = (13.05 : ℝ) := by norm_num
  have hlo : (((13.05 : ℝ), (80.20 : ℝ)).2 + ((13.05 : ℝ), (80.20 : ℝ)).2) / 2
      = (80.20 : ℝ) := by norm_num
  rw [hla, hlo]
  have hmd : min_distance_to_flood 13.05 80.20 [((13.05 : ℝ), (80.20 : ℝ))] = 0 := by
    rw [show min_distance_to_flood 13.05 80.20 [((13.05 : ℝ), (80.20 : ℝ))]
        = haversine_km 13.05 80.20 13.05 80.20 from rfl]
    exact haversine_self 13.05 80.20
  rw [hmd]
  unfold flood_risk
  rw [if_neg (by norm_num)]
  norm_num

lemma cex_seg_length :
    seg_length [(1, (13.05 : ℝ), (80.20 : ℝ)), (2, (13.05 : ℝ), (80.20 : ℝ))] 1 2
      = 0 := by
  unfold seg_length
  rw [cex_node_coord_one, cex_node_coord_two]
  show haversine_km 13.05 80.20 13.05 80.20 * 1000 = 0
  rw [haversine_self]
  ring

lemma cex_build :
    build_flood_weighted_graph_overpass [((13.05 : ℝ), (80.20 : ℝ))]
      [(1, (13.05 : ℝ), (80.20 : ℝ)), (2, (13.05 : ℝ), (80.20 : ℝ))]
      [[1, 2]] 0.02 5 0.5
    = Except.ok
        ⟨[(1, (13.05 : ℝ), (80.20 : ℝ)), (2, (13.05 : ℝ), (80.20 : ℝ))],
          [(1, 2, 0, 0)]⟩ := by
  have hstep : build_flood_weighted_graph_overpass [((13.05 : ℝ), (80.20 : ℝ))]
      [(1, (13.05 : ℝ), (80.20 : ℝ)), (2, (13.05 : ℝ), (80.20 : ℝ))]
      [[1, 2]] 0.02 5 0.5
    = Except.ok
        ⟨[(1, (13.05 : ℝ), (80.20 : ℝ)), (2, (13.05 : ℝ), (80.20 : ℝ))],
          [(1, 2,
            seg_length [(1, (13.05 : ℝ), (80.20 : ℝ)),
              (2, (13.05 : ℝ), (80.20 : ℝ))] 1 2,
            seg_length [(1, (13.05 : ℝ), (80.20 : ℝ)),
              (2, (13.05 : ℝ), (80.20 : ℝ))] 1 2 *
              (1 + 5 * edge_risk [((13.05 : ℝ), (80.20 : ℝ))]
                [(1, (13.05 : ℝ), (80.20 : ℝ)), (2, (13.05 : ℝ), (80.20 : ℝ))]
                0.5 1 2))]⟩ := rfl
  rw [hstep, cex_seg_length, cex_risk]
  norm_num

/-- C1 counterexample: the build over two distinct nodes at identical
coordinates produces an edge of length `0` and weight `0`, so
`weight = length_m` even though `alpha = 5 ≠ 0` and the edge's risk is
`1 ≠ 0` — refuting "equality exactly when `alpha == 0` or `risk == 0`". -/
theorem weight_eq_length_despite_positive_risk :
    (1, 2, (0 : ℝ), (0 : ℝ)) ∈ graphEdges
      (build_flood_weighted_graph_overpass [((13.05 : ℝ), (80.20 : ℝ))]
        [(1, (13.05 : ℝ), (80.20 : ℝ)), (2, (13.05 : ℝ), (80.20 : ℝ))]
        [[1, 2]] 0.02 5 0.5) ∧
    (5 : ℝ) ≠ 0 ∧
    edge_risk [((13.05 : ℝ), (80.20 : ℝ))]
      [(1, (13.05 : ℝ), (80.20 : ℝ)), (2, (13.05 : ℝ), (80.20 : ℝ))] 0.5 1 2
      ≠ 0 := by
  refine ⟨?_, by norm_num, ?_⟩
  · rw [cex_build]
    exact List.mem_singleton.mpr rfl
  · rw [cex_risk]
    norm_num

lemma nearest_from_spec (lat lon : ℝ) :
    ∀ (L : List (Nat × ℝ × ℝ)) (bn : Nat) (bd : ℝ),
      (nearest_from lat lon bn bd L = bn ∧
        ∀ x ∈ L, bd ≤ haversine_km lat lon x.2.1 x.2.2) ∨
      (∃ L1 x L2, L = L1 ++ x :: L2 ∧
        nearest_from lat lon bn bd L = x.1 ∧
        haversine_km lat lon x.2.1 x.2.2 < bd ∧
        (∀ y ∈ L1,
          haversine_km lat lon x.2.1 x.2.2 < haversine_km lat lon y.2.1 y.2.2) ∧
        (∀ y ∈ L2,
          haversine_km lat lon x.2.1 x.2.2 ≤ haversine_km lat lon y.2.1 y.2.2)) := by
  intro L
  induction L with
  | nil =>
    intro bn bd
    exact Or.inl ⟨rfl, by intro x hx; cases hx⟩
  | cons z rest ih =>
    intro bn bd
    by_cases hz : haversine_km lat lon z.2.1 z.2.2 < bd
    · rcases ih z.1 (haversine_km lat lon z.2.1 z.2.2) with ⟨heq, hall⟩ |
        ⟨R1, x, R2, hrest, heq, hlt, h1, h2⟩
      · refine Or.inr ⟨[], z, rest, rfl, ?_, hz, ?_, hall⟩
        · rw [nearest_from, if_pos hz]
          exact heq
        · intro y hy; cases hy
      · refine Or.inr ⟨z :: R1, x, R2, by rw [hrest, List.cons_append], ?_, hlt.trans hz, ?_, h2⟩
        · rw [nearest_from, if_pos hz]
          exact heq
        · intro y hy
          rcases List.mem_cons.mp hy with hy | hy
          · exact hy ▸ hlt
          · exact h1 y hy
    · rcases ih bn bd with ⟨heq, hall⟩ | ⟨R1, x, R2, hrest, heq, hlt, h1, h2⟩
      · refine Or.inl ⟨?_, ?_⟩
        · rw [nearest_from, if_neg hz]
          exact heq
        · intro y hy
          rcases List.mem_cons.mp hy with hy | hy
          · exact hy ▸ not_lt.mp hz
          · exact hall y hy
      · refine Or.inr ⟨z :: R1, x, R2, by rw [hrest, List.cons_append], ?_, hlt, ?_, h2⟩
        · rw [nearest_from, if_neg hz]
          exact heq
        · intro y hy
          rcases List.mem_cons.mp hy with hy | hy
          · exact hy ▸ lt_of_lt_of_le hlt (not_lt.mp hz)
          · exact h1 y hy

/-- C7: the Nearest-Node Locator returns the node minimizing the haversine
distance to the query point, ties broken in favor of the first node in the
graph's enumeration order (every node strictly earlier than the returned one
is strictly farther); on a graph with a single node, any query point returns
that node. -/
theorem nearest_node_minimizes :
    (∀ (G : RoadGraph) (lat lon : ℝ), G.nodes ≠ [] →
      ∃ L1 b L2, G.nodes = L1 ++ b :: L2 ∧
        find_nearest_node G lat lon = some b.1 ∧
        (∀ x ∈ G.nodes,
          haversine_km lat lon b.2.1 b.2.2 ≤ haversine_km lat lon x.2.1 x.2.2) ∧
        (∀ x ∈ L1,
          haversine_km lat lon b.2.1 b.2.2 < haversine_km lat lon x.2.1 x.2.2)) ∧
    (∀ (nid : Nat) (nlat nlon lat lon : ℝ) (es : List (Nat × Nat × ℝ × ℝ)),
      find_nearest_node ⟨[(nid, nlat, nlon)], es⟩ lat lon = some nid) := by
  constructor
  · intro G lat lon hne
    obtain ⟨n, rest, hG⟩ : ∃ n rest, G.nodes = n :: rest := by
      cases hnodes : G.nodes with
      | nil => exact absurd hnodes hne
      | cons n rest => exact ⟨n, rest, rfl⟩
    have hfind : find_nearest_node G lat lon
        = some (nearest_from lat lon n.1 (haversine_km lat lon n.2.1 n.2.2) rest) := by
      rw [find_nearest_node, hG]
    rcases nearest_from_spec lat lon rest n.1 (haversine_km lat lon n.2.1 n.2.2)
      with ⟨heq, hall⟩ | ⟨R1, x, R2, hrest, heq, hlt, h1, h2⟩
    · refine ⟨[], n, rest, by rw [hG, List.nil_append], by rw [hfind, heq], ?_, ?_⟩
      · intro y hy
        rw [hG] at hy
        rcases List.mem_cons.mp hy with hy | hy
        · exact hy ▸ le_refl _
        · exact hall y hy
      · intro y hy; cases hy
    · refine ⟨n :: R1, x, R2, by rw [hG, hrest, List.cons_append], by rw [hfind, heq], ?_, ?_⟩
      · intro y hy
        rw [hG, hrest] at hy
        rcases List.mem_cons.mp hy with hy | hy
        · exact hy ▸ hlt.le
        · rcases List.mem_append.mp hy with hy | hy
          · exact (h1 y hy).le
          · rcases List.mem_cons.mp hy with hy | hy
            · exact hy ▸ le_refl _
            · exact h2 y hy
      · intro y hy
        rcases List.mem_cons.mp hy with hy | hy
        · exact hy ▸ hlt
        · exact h1 y hy
  · intro nid nlat nlon lat lon es
    rfl

/-- C7 witness: a single-node graph (node 1 at `(13.0, 80.0)`) is non-empty,
and a far-away query point still returns node 1. -/
theorem nearest_node_minimizes_witness :
    (((⟨[(1, (13.0 : ℝ), (80.0 : ℝ))], []⟩ : RoadGraph).nodes ≠ []) ∧
      ∃ L1 b L2,
        (⟨[(1, (13.0 : ℝ), (80.0 : ℝ))], []⟩ : RoadGraph).nodes = L1 ++ b :: L2 ∧
        find_nearest_node ⟨[(1, (13.0 : ℝ), (80.0 : ℝ))], []⟩ 40 7 = some b.1 ∧
        (∀ x ∈ (⟨[(1, (13.0 : ℝ), (80.0 : ℝ))], []⟩ : RoadGraph).nodes,
          haversine_km 40 7 b.2.1 b.2.2 ≤ haversine_km 40 7 x.2.1 x.2.2) ∧
        (∀ x ∈ L1,
          haversine_km 40 7 b.2.1 b.2.2 < haversine_km 40 7 x.2.1 x.2.2)) ∧
    find_nearest_node ⟨[(1, (13.0 : ℝ), (80.0 : ℝ))], []⟩ 40 7 = some 1 :=
  ⟨⟨by simp,
    nearest_node_minimizes.1 ⟨[(1, (13.0 : ℝ), (80.0 : ℝ))], []⟩ 40 7 (by simp)⟩,
    nearest_node_minimizes.2 1 13.0 80.0 40 7 []⟩

/-- Nodes `a` and `b` are joined by an edge of the (undirected) edge list. -/
def isEdge (es : List (Nat × Nat × ℝ × ℝ)) (a b : Nat) : Prop :=
  ∃ e ∈ es, (e.1 = a ∧ e.2.1 = b) ∨ (e.1 = b ∧ e.2.1 = a)

/-- Neighbors of `a` in the edge list (possibly with repetitions). -/
def nbrs (es : List (Nat × Nat × ℝ × ℝ)) (a : Nat) : List Nat :=
  es.filterMap (fun e =>
    if e.1 = a then some e.2.1
    else if e.2.1 = a then some e.1
    else none)

/-- Weight attribute of the edge joining `a` and `b` (`0` if absent; only
applied to id pairs actually joined by an edge). -/
noncomputable def edge_wt (es : List (Nat × Nat × ℝ × ℝ)) (a b : Nat) : ℝ :=
  match es.find? (fun e => (e.1 == a && e.2.1 == b) || (e.1 == b && e.2.1 == a)) with
  | some e => e.2.2.2
  | none => 0

/-- Total `weight` cost of a node sequence: the sum of the weights of its
consecutive edges. -/
noncomputable def path_weight (es : List (Nat × Nat × ℝ × ℝ)) : List Nat → ℝ
  | a :: b :: rest => edge_wt es a b + path_weight es (b :: rest)
  | _ => 0

/-- All paths from `s` to `t` that avoid `avoid` and take at most `fuel`
further hops: the reference enumeration a weighted-shortest-path search is
measured against. -/
def simple_paths_from (es : List (Nat × Nat × ℝ × ℝ)) (t : Nat) :
    Nat → List Nat → Nat → List (List Nat)
  | 0, _, s => if s = t then [[t]] else []
  | f + 1, avoid, s =>
    if s = t then [[t]]
    else
      ((nbrs es s).filter (fun n => decide (n ∉ avoid))).flatMap
        (fun n => (simple_paths_from es t f (s :: avoid) n).map (fun p => s :: p))

/-- First element of the list minimizing `w`, scanning left to right and
replacing only on strict improvement. -/
noncomputable def first_min_by (w : List Nat → ℝ) :
    List (List Nat) → Option (List Nat)
  | [] => none
  | x :: xs => some (xs.foldl (fun b y => if w y < w b then y else b) x)

/-- Node ids of the graph, in insertion order. -/
def node_ids (G : RoadGraph) : List Nat := G.nodes.map (fun n => n.1)

/-- Model of `networkx.shortest_path(G, s, t, weight="weight")` (source line
154), an external library call.  Modelled from the spec: §4.5 — a
non-negative-weight shortest-path computation returning a minimum-`weight`
path from `s` to `t` inclusive, raising `NodeNotFound` when either endpoint
is missing and `NetworkXNoPath` when no path exists.  The model returns the
first minimum-cost member of the exhaustive path enumeration. -/
noncomputable def nx_shortest_path (G : RoadGraph) (s t : Nat) :
    Except Err (List Nat) :=
  if s ∈ node_ids G ∧ t ∈ node_ids G then
    match first_min_by (path_weight G.edges)
        (simple_paths_from G.edges t G.nodes.length [] s) with
    | some p => Except.ok p
    | none => Except.error Err.noPathExists
  else Except.error Err.nodeNotFound

/-- Route extraction `[(G.nodes[n]["lat"], G.nodes[n]["lon"]) for n in path]` (source
line 156). -/
def route_of (G : RoadGraph) (p : List Nat) : List (ℝ × ℝ) :=
  p.map (fun n => node_coord G.nodes n)

/-- The Path Finder on two node ids: shortest path, then coordinates. -/
noncomputable def route_between (G : RoadGraph) (s t : Nat) :
    Except Err (List (ℝ × ℝ)) :=
  (nx_shortest_path G s t).map (route_of G)

/-- Source function `compute_safe_path` (lines 149–157): nearest nodes to the two
query coordinates, then the weighted shortest path mapped to coordinates.
On a graph with no nodes `find_nearest_node` yields `None`, and passing
`None` to `networkx.shortest_path` raises `NodeNotFound`. -/
noncomputable def compute_safe_path (G : RoadGraph)
    (start_lat start_lon end_lat end_lon : ℝ) : Except Err (List (ℝ × ℝ)) :=
  match find_nearest_node G start_lat start_lon,
      find_nearest_node G end_lat end_lon with
  | some sn, some en => route_between G sn en
  | _, _ => Except.error Err.nodeNotFound

lemma isEdge_of_mem_nbrs {es : List (Nat × Nat × ℝ × ℝ)} {a b : Nat}
    (h : b ∈ nbrs es a) : isEdge es a b := by
  rcases List.mem_filterMap.mp h with ⟨e, he, hfe⟩
  by_cases h1 : e.1 = a
  · rw [if_pos h1] at hfe
    exact ⟨e, he, Or.inl ⟨h1, Option.some.inj hfe⟩⟩
  · rw [if_neg h1] at hfe
    by_cases h2 : e.2.1 = a
    · rw [if_pos h2] at hfe
      exact ⟨e, he, Or.inr ⟨Option.some.inj hfe, h2⟩⟩
    · rw [if_neg h2] at hfe
      cases hfe

lemma mem_nbrs_of_isEdge {es : List (Nat × Nat × ℝ × ℝ)} {a b : Nat}
    (h : isEdge es a b) : b ∈ nbrs es a := by
  rcases h with ⟨e, he, ⟨h1, h2⟩ | ⟨h1, h2⟩⟩
  · exact List.mem_filterMap.mpr ⟨e, he, by rw [if_pos h1, h2]⟩
  · by_cases h3 : e.1 = a
    · refine List.mem_filterMap.mpr ⟨e, he, by rw [if_pos h3, h2, ← h3, h1]⟩
    · exact List.mem_filterMap.mpr ⟨e, he, by rw [if_neg h3, if_pos h2, h1]⟩

lemma nodup_walk_self {q : List Nat} {s : Nat} (hh : q.head? = some s)
    (hl : q.getLast? = some s) (hnd : q.Nodup) : q = [s] := by
  cases q with
  | nil => cases hh
  | cons a q' =>
    have ha : a = s := Option.some.inj hh
    cases q' with
    | nil => rw [ha]
    | cons b r =>
      exfalso
      rw [List.getLast?_cons_cons] at hl
      have hx : s ∈ (b :: r).getLast? := by rw [hl]; rfl
      obtain ⟨hne, hxe⟩ := List.mem_getLast?_eq_getLast hx
      have hmem : s ∈ b :: r := by rw [hxe]; exact List.getLast_mem hne
      rw [ha] at hnd
      exact (List.nodup_cons.mp hnd).1 hmem

lemma spf_sound (es : List (Nat × Nat × ℝ × ℝ)) (t : Nat) :
    ∀ (fuel : Nat) (avoid : List Nat) (s : Nat) (p : List Nat),
      p ∈ simple_paths_from es t fuel avoid s →
      p.head? = some s ∧ p.getLast? = some t ∧ List.Chain' (isEdge es) p := by
  intro fuel
  induction fuel with
  | zero =>
    intro avoid s p hp
    rw [simple_paths_from] at hp
    by_cases hst : s = t
    · rw [if_pos hst] at hp
      rw [List.mem_singleton.mp hp, hst]
      exact ⟨rfl, rfl, List.chain'_singleton t⟩
    · rw [if_neg hst] at hp
      cases hp
  | succ f ih =>
    intro avoid s p hp
    rw [simple_paths_from] at hp
    by_cases hst : s = t
    · rw [if_pos hst] at hp
      rw [List.mem_singleton.mp hp, hst]
      exact ⟨rfl, rfl, List.chain'_singleton t⟩
    · rw [if_neg hst] at hp
      rcases List.mem_flatMap.mp hp with ⟨n, hn, hpn⟩
      rcases List.mem_map.mp hpn with ⟨q, hq, hqe⟩
      subst hqe
      obtain ⟨hqh, hql, hqc⟩ := ih (s :: avoid) n q hq
      have hqne : q ≠ [] := by
        intro h
        rw [h] at hqh
        cases hqh
      refine ⟨rfl, ?_, ?_⟩
      · cases q with
        | nil => exact absurd rfl hqne
        | cons b r => rw [List.getLast?_cons_cons]; exact hql
      · refine List.chain'_cons'.mpr ⟨?_, hqc⟩
        intro b hb
        rw [hqh] at hb
        have hbn := Option.mem_some_iff.mp hb
        subst hbn
        exact isEdge_of_mem_nbrs (List.mem_of_mem_filter hn)

lemma spf_complete (es : List (Nat × Nat × ℝ × ℝ)) (t : Nat) :
    ∀ (fuel : Nat) (avoid : List Nat) (s : Nat) (q : List Nat),
      q.head? = some s → q.getLast? = some t →
      List.Chain' (isEdge es) q → q.Nodup →
      (∀ x ∈ q, x ∉ avoid) → q.length ≤ fuel + 1 →
      q ∈ simple_paths_from es t fuel avoid s := by
  intro fuel
  induction fuel with
  | zero =>
    intro avoid s q hh hl hc hnd hav hlen
    rw [simple_paths_from]
    cases q with
    | nil => cases hh
    | cons a q' =>
      have ha : a = s := Option.some.inj hh
      cases q' with
      | nil =>
        have hat : a = t := Option.some.inj hl
        have hst : s = t := ha ▸ hat
        rw [if_pos hst, ha, hst]
        exact List.mem_singleton.mpr rfl
      | cons b r => simp at hlen
  | succ f ih =>
    intro avoid s q hh hl hc hnd hav hlen
    rw [simple_paths_from]
    by_cases hst : s = t
    · rw [if_pos hst]
      have : q = [s] := nodup_walk_self hh (hst ▸ hl) hnd
      rw [this, hst]
      exact List.mem_singleton.mpr rfl
    · rw [if_neg hst]
      cases q with
      | nil => cases hh
      | cons a q' =>
        have ha : a = s := Option.some.inj hh
        subst ha
        cases q' with
        | nil => exact absurd (Option.some.inj hl) hst
        | cons n rest =>
          have hedge : isEdge es a n := (List.chain'_cons.mp hc).1
          refine List.mem_flatMap.mpr ⟨n, ?_, ?_⟩
          · refine List.mem_filter.mpr ⟨mem_nbrs_of_isEdge hedge, ?_⟩
            simp only [decide_eq_true_eq]
            exact hav n (List.mem_cons_of_mem _ (List.mem_cons_self _ _))
          · refine List.mem_map.mpr ⟨n :: rest, ?_, rfl⟩
            apply ih (a :: avoid) n (n :: rest) rfl
              (by rw [← List.getLast?_cons_cons (a := a)]; exact hl)
              (List.chain'_cons.mp hc).2 (List.nodup_cons.mp hnd).2
            · intro x hx
              rw [List.mem_cons]
              rintro (hxa | hxav)
              · exact (List.nodup_cons.mp hnd).1 (hxa ▸ hx)
              · exact hav x (List.mem_cons_of_mem _ hx) hxav
            · have : (a :: n :: rest).length ≤ f + 2 := hlen
              simpa using Nat.le_of_succ_le_succ this

lemma walk_subset_ids (G : RoadGraph)
    (hwf : ∀ e ∈ G.edges, e.1 ∈ node_ids G ∧ e.2.1 ∈ node_ids G) :
    ∀ (q : List Nat) (s : Nat), q.head? = some s → s ∈ node_ids G →
      List.Chain' (isEdge G.edges) q → ∀ x ∈ q, x ∈ node_ids G := by
  intro q
  induction q with
  | nil => intro s hh _ _ x hx; cases hx
  | cons a q' ih =>
    intro s hh hs hc x hx
    have ha : a = s := Option.some.inj hh
    rcases List.mem_cons.mp hx with hxa | hx'
    · rw [hxa, ha]; exact hs
    · cases q' with
      | nil => cases hx'
      | cons b r =>
        have hab : isEdge G.edges a b := (List.chain'_cons.mp hc).1
        have hb : b ∈ node_ids G := by
          rcases hab with ⟨e, he, ⟨h1, h2⟩ | ⟨h1, h2⟩⟩
          · exact h2 ▸ (hwf e he).2
          · exact h1 ▸ (hwf e he).1
        exact ih b rfl hb (List.chain'_cons.mp hc).2 x hx'

lemma nodup_length_le {q L : List Nat} (hnd : q.Nodup)
    (hsub : ∀ x ∈ q, x ∈ L) : q.length ≤ L.length := by
  classical
  have h1 : q.toFinset.card = q.length := List.toFinset_card_of_nodup hnd
  have h2 : q.toFinset ⊆ L.toFinset := by
    intro x hx
    rw [List.mem_toFinset] at hx ⊢
    exact hsub x hx
  calc q.length = q.toFinset.card := h1.symm
    _ ≤ L.toFinset.card := Finset.card_le_card h2
    _ ≤ L.length := L.toFinset_card_le

lemma foldl_min_choice (w : List Nat → ℝ) :
    ∀ (xs : List (List Nat)) (b : List Nat),
      (xs.foldl (fun b y => if w y < w b then y else b) b = b ∨
        xs.foldl (fun b y => if w y < w b then y else b) b ∈ xs) ∧
      w (xs.foldl (fun b y => if w y < w b then y else b) b) ≤ w b ∧
      ∀ y ∈ xs, w (xs.foldl (fun b y => if w y < w b then y else b) b) ≤ w y := by
  intro xs
  induction xs with
  | nil =>
    intro b
    exact ⟨Or.inl rfl, le_refl _, by intro y hy; cases hy⟩
  | cons x xs ih =>
    intro b
    rw [List.foldl_cons]
    by_cases hx : w x < w b
    · rw [if_pos hx]
      obtain ⟨hor, hle, hall⟩ := ih x
      refine ⟨?_, hle.trans hx.le, ?_⟩
      · rcases hor with h | h
        · exact Or.inr (by rw [h]; exact List.mem_cons_self _ _)
        · exact Or.inr (List.mem_cons_of_mem _ h)
      · intro y hy
        rcases List.mem_cons.mp hy with hy | hy
        · exact hy ▸ hle
        · exact hall y hy
    · rw [if_neg hx]
      obtain ⟨hor, hle, hall⟩ := ih b
      refine ⟨?_, hle, ?_⟩
      · rcases hor with h | h
        · exact Or.inl h
        · exact Or.inr (List.mem_cons_of_mem _ h)
      · intro y hy
        rcases List.mem_cons.mp hy with hy | hy
        · exact hy ▸ hle.trans (not_lt.mp hx)
        · exact hall y hy

lemma first_min_by_spec {w : List Nat → ℝ} {l : List (List Nat)}
    {p : List Nat} (h : first_min_by w l = some p) :
    p ∈ l ∧ ∀ y ∈ l, w p ≤ w y := by
  cases l with
  | nil => cases h
  | cons x xs =>
    have hp : p = xs.foldl (fun b y => if w y < w b then y else b) x :=
      (Option.some.inj h).symm
    obtain ⟨hor, hle, hall⟩ := foldl_min_choice w xs x
    constructor
    · rcases hor with h' | h'
      · rw [hp, h']
        exact List.mem_cons_self _ _
      · exact hp ▸ List.mem_cons_of_mem _ h'
    · intro y hy
      rcases List.mem_cons.mp hy with hy | hy
      · exact hy ▸ hp ▸ hle
      · exact hp ▸ hall y hy

/-- Membership in the master enumeration used by `nx_shortest_path`, for any
simple path of the graph. -/
lemma mem_enum_of_simple_path (G : RoadGraph)
    (hwf : ∀ e ∈ G.edges, e.1 ∈ node_ids G ∧ e.2.1 ∈ node_ids G)
    {s t : Nat} (hs : s ∈ node_ids G) {q : List Nat}
    (hqh : q.head? = some s) (hql : q.getLast? = some t)
    (hqc : List.Chain' (isEdge G.edges) q) (hqnd : q.Nodup) :
    q ∈ simple_paths_from G.edges t G.nodes.length [] s := by
  apply spf_complete G.edges t G.nodes.length [] s q hqh hql hqc hqnd
  · intro x _ hx
    cases hx
  · have hsub := walk_subset_ids G hwf q s hqh hs hqc
    have hlen : q.length ≤ (node_ids G).length := nodup_length_le hqnd hsub
    have : (node_ids G).length = G.nodes.length := List.length_map _ _
    omega

/-- C3: on a well-formed graph with non-negative weights, for connected node
ids `s`, `t` the Path Finder returns a route listing traversed node
coordinates in order, starting at `s`'s coordinate and ending at `t`'s,
whose total edge-weight sum is minimal among all (simple) paths between the
two nodes; for `s = t` the underlying path is the single node `s` with cost
`0`. -/
theorem shortest_path_correct (G : RoadGraph) (s t : Nat)
    (hwf : ∀ e ∈ G.edges, e.1 ∈ node_ids G ∧ e.2.1 ∈ node_ids G)
    (hs : s ∈ node_ids G) (ht : t ∈ node_ids G)
    (hw : ∀ e ∈ G.edges, 0 ≤ e.2.2.2)
    (hconn : ∃ q, q.head? = some s ∧ q.getLast? = some t ∧
      List.Chain' (isEdge G.edges) q ∧ q.Nodup) :
    ∃ p, nx_shortest_path G s t = Except.ok p ∧
      route_between G s t = Except.ok (route_of G p) ∧
      p.head? = some s ∧ p.getLast? = some t ∧
      (route_of G p).head? = some (node_coord G.nodes s) ∧
      (route_of G p).getLast? = some (node_coord G.nodes t) ∧
      List.Chain' (isEdge G.edges) p ∧
      (∀ q, q.head? = some s → q.getLast? = some t →
        List.Chain' (isEdge G.edges) q → q.Nodup →
        path_weight G.edges p ≤ path_weight G.edges q) ∧
      (s = t → p = [s] ∧ path_weight G.edges p = 0) := by
  obtain ⟨q0, hq0h, hq0l, hq0c, hq0nd⟩ := hconn
  have hq0mem : q0 ∈ simple_paths_from G.edges t G.nodes.length [] s :=
    mem_enum_of_simple_path G hwf hs hq0h hq0l hq0c hq0nd
  obtain ⟨p, hp⟩ : ∃ p, first_min_by (path_weight G.edges)
      (simple_paths_from G.edges t G.nodes.length [] s) = some p := by
    cases hl : simple_paths_from G.edges t G.nodes.length [] s with
    | nil => rw [hl] at hq0mem; cases hq0mem
    | cons x xs => exact ⟨_, rfl⟩
  obtain ⟨hpmem, hpmin⟩ := first_min_by_spec hp
  obtain ⟨hph, hpl, hpc⟩ := spf_sound G.edges t G.nodes.length [] s p hpmem
  have hok : nx_shortest_path G s t = Except.ok p := by
    rw [nx_shortest_path, if_pos ⟨hs, ht⟩, hp]
  refine ⟨p, hok, by rw [route_between, hok]; rfl, hph, hpl, ?_, ?_, hpc, ?_, ?_⟩
  · rw [route_of, List.head?_map, hph]
    rfl
  · rw [route_of, List.getLast?_map, hpl]
    rfl
  · intro q hqh hql hqc hqnd
    exact hpmin q (mem_enum_of_simple_path G hwf hs hqh hql hqc hqnd)
  · intro hst
    subst hst
    have henum : simple_paths_from G.edges s G.nodes.length [] s = [[s]] := by
      cases hfuel : G.nodes.length with
      | zero => rw [simple_paths_from, if_pos rfl]
      | succ k => rw [simple_paths_from, if_pos rfl]
    rw [henum] at hp
    have hps : p = [s] := (Option.some.inj hp).symm
    exact ⟨hps, by rw [hps]; rfl⟩

/-- C3 witness: the amended-free claim instantiated on the concrete two-node
graph with the single edge `1`–`2` of weight `100`. -/
theorem shortest_path_correct_witness :
    (∀ e ∈ (⟨[(1, (13.0 : ℝ), (80.0 : ℝ)), (2, (14.0 : ℝ), (81.0 : ℝ))],
        [(1, 2, (100 : ℝ), (100 : ℝ))]⟩ : RoadGraph).edges,
      e.1 ∈ node_ids ⟨[(1, (13.0 : ℝ), (80.0 : ℝ)), (2, (14.0 : ℝ), (81.0 : ℝ))],
        [(1, 2, (100 : ℝ), (100 : ℝ))]⟩ ∧
      e.2.1 ∈ node_ids ⟨[(1, (13.0 : ℝ), (80.0 : ℝ)), (2, (14.0 : ℝ), (81.0 : ℝ))],
        [(1, 2, (100 : ℝ), (100 : ℝ))]⟩) ∧
    ((1 : Nat) ∈ node_ids ⟨[(1, (13.0 : ℝ), (80.0 : ℝ)), (2, (14.0 : ℝ), (81.0 : ℝ))],
        [(1, 2, (100 : ℝ), (100 : ℝ))]⟩) ∧
    (∃ p, nx_shortest_path ⟨[(1, (13.0 : ℝ), (80.0 : ℝ)), (2, (14.0 : ℝ), (81.0 : ℝ))],
        [(1, 2, (100 : ℝ), (100 : ℝ))]⟩ 1 2 = Except.ok p ∧
      route_between ⟨[(1, (13.0 : ℝ), (80.0 : ℝ)), (2, (14.0 : ℝ), (81.0 : ℝ))],
        [(1, 2, (100 : ℝ), (100 : ℝ))]⟩ 1 2
        = Except.ok (route_of ⟨[(1, (13.0 : ℝ), (80.0 : ℝ)),
            (2, (14.0 : ℝ), (81.0 : ℝ))], [(1, 2, (100 : ℝ), (100 : ℝ))]⟩ p) ∧
      p.head? = some 1 ∧ p.getLast? = some 2 ∧
      (route_of ⟨[(1, (13.0 : ℝ), (80.0 : ℝ)), (2, (14.0 : ℝ), (81.0 : ℝ))],
          [(1, 2, (100 : ℝ), (100 : ℝ))]⟩ p).head?
        = some (node_coord [(1, (13.0 : ℝ), (80.0 : ℝ)), (2, (14.0 : ℝ), (81.0 : ℝ))] 1) ∧
      (route_of ⟨[(1, (13.0 : ℝ), (80.0 : ℝ)), (2, (14.0 : ℝ), (81.0 : ℝ))],
          [(1, 2, (100 : ℝ), (100 : ℝ))]⟩ p).getLast?
        = some (node_coord [(1, (13.0 : ℝ), (80.0 : ℝ)), (2, (14.0 : ℝ), (81.0 : ℝ))] 2) ∧
      List.Chain' (isEdge [(1, 2, (100 : ℝ), (100 : ℝ))]) p ∧
      (∀ q, q.head? = some 1 → q.getLast? = some 2 →
        List.Chain' (isEdge [(1, 2, (100 : ℝ), (100 : ℝ))]) q → q.Nodup →
        path_weight [(1, 2, (100 : ℝ), (100 : ℝ))] p
          ≤ path_weight [(1, 2, (100 : ℝ), (100 : ℝ))] q) ∧
      ((1 : Nat) = 2 → p = [1] ∧ path_weight [(1, 2, (100 : ℝ), (100 : ℝ))] p = 0)) := by
  have hwf : ∀ e ∈ (⟨[(1, (13.0 : ℝ), (80.0 : ℝ)), (2, (14.0 : ℝ), (81.0 : ℝ))],
      [(1, 2, (100 : ℝ), (100 : ℝ))]⟩ : RoadGraph).edges,
      e.1 ∈ node_ids ⟨[(1, (13.0 : ℝ), (80.0 : ℝ)), (2, (14.0 : ℝ), (81.0 : ℝ))],
        [(1, 2, (100 : ℝ), (100 : ℝ))]⟩ ∧
      e.2.1 ∈ node_ids ⟨[(1, (13.0 : ℝ), (80.0 : ℝ)), (2, (14.0 : ℝ), (81.0 : ℝ))],
        [(1, 2, (100 : ℝ), (100 : ℝ))]⟩ := by
    intro e he
    rw [List.mem_singleton] at he
    subst he
    exact ⟨by simp [node_ids], by simp [node_ids]⟩
  refine ⟨hwf, by simp [node_ids], ?_⟩
  apply shortest_path_correct _ 1 2 hwf (by simp [node_ids]) (by simp [node_ids])
  · intro e he
    rw [List.mem_singleton] at he
    subst he
    norm_num
  · refine ⟨[1, 2], rfl, rfl, ?_, by simp⟩
    exact List.chain'_pair.mpr ⟨(1, 2, (100 : ℝ), (100 : ℝ)),
      List.mem_singleton.mpr rfl, Or.inl ⟨rfl, rfl⟩⟩

/-- C4: for valid node ids lying in disconnected components (no walk joins
them), the Path Finder fails with the typed no-path error rather than
returning a route or a default value. -/
theorem disconnected_fails_no_path (G : RoadGraph) (s t : Nat)
    (hs : s ∈ node_ids G) (ht : t ∈ node_ids G)
    (hdisc : ¬ ∃ q : List Nat, q.head? = some s ∧ q.getLast? = some t ∧
      List.Chain' (isEdge G.edges) q) :
    route_between G s t = Except.error Err.noPathExists ∧
    nx_shortest_path G s t = Except.error Err.noPathExists := by
  have henum : simple_paths_from G.edges t G.nodes.length [] s = [] := by
    cases hl : simple_paths_from G.edges t G.nodes.length [] s with
    | nil => rfl
    | cons p ps =>
      exfalso
      have hp : p ∈ simple_paths_from G.edges t G.nodes.length [] s := by
        rw [hl]
        exact List.mem_cons_self _ _
      obtain ⟨hh, hlast, hc⟩ := spf_sound G.edges t G.nodes.length [] s p hp
      exact hdisc ⟨p, hh, hlast, hc⟩
  have hnx : nx_shortest_path G s t = Except.error Err.noPathExists := by
    rw [nx_shortest_path, if_pos ⟨hs, ht⟩, henum]
    rfl
  exact ⟨by rw [route_between, hnx]; rfl, hnx⟩

lemma no_walk_without_edges {s t : Nat} (hst : s ≠ t) :
    ¬ ∃ q : List Nat, q.head? = some s ∧ q.getLast? = some t ∧
      List.Chain' (isEdge ([] : List (Nat × Nat × ℝ × ℝ))) q := by
  rintro ⟨q, hh, hl, hc⟩
  cases q with
  | nil => cases hh
  | cons a q' =>
    have ha : a = s := Option.some.inj hh
    cases q' with
    | nil => exact hst (ha ▸ Option.some.inj hl)
    | cons b r =>
      obtain ⟨⟨e, he, -⟩, -⟩ := List.chain'_cons.mp hc
      cases he

/-- C4 witness: two isolated nodes with an empty edge list are valid node ids
with no connecting walk, and the Path Finder reports the no-path failure. -/
theorem disconnected_fails_no_path_witness :
    ((1 : Nat) ∈ node_ids ⟨[(1, (13.0 : ℝ), (80.0 : ℝ)), (2, (14.0 : ℝ), (81.0 : ℝ))], []⟩) ∧
    ((2 : Nat) ∈ node_ids ⟨[(1, (13.0 : ℝ), (80.0 : ℝ)), (2, (14.0 : ℝ), (81.0 : ℝ))], []⟩) ∧
    route_between ⟨[(1, (13.0 : ℝ), (80.0 : ℝ)), (2, (14.0 : ℝ), (81.0 : ℝ))], []⟩ 1 2
      = Except.error Err.noPathExists ∧
    nx_shortest_path ⟨[(1, (13.0 : ℝ), (80.0 : ℝ)), (2, (14.0 : ℝ), (81.0 : ℝ))], []⟩ 1 2
      = Except.error Err.noPathExists :=
  ⟨by simp [node_ids], by simp [node_ids],
    disconnected_fails_no_path
      ⟨[(1, (13.0 : ℝ), (80.0 : ℝ)), (2, (14.0 : ℝ), (81.0 : ℝ))], []⟩ 1 2
      (by simp [node_ids]) (by simp [node_ids])
      (no_walk_without_edges (by norm_num))⟩

lemma node_coord_mem {ns : List (Nat × ℝ × ℝ)} {x : Nat}
    (hx : x ∈ ns.map (fun n => n.1)) :
    ∃ nd ∈ ns, node_coord ns x = (nd.2.1, nd.2.2) := by
  have hsome : (ns.find? (fun n => n.1 == x)).isSome := by
    rw [List.find?_isSome]
    rcases List.mem_map.mp hx with ⟨nd, hnd, h1⟩
    exact ⟨nd, hnd, by simp [h1]⟩
  obtain ⟨nd, hfind⟩ := Option.isSome_iff_exists.mp hsome
  exact ⟨nd, List.mem_of_find?_eq_some hfind, by rw [node_coord, hfind]⟩

lemma nx_ok_mem_enum {G : RoadGraph} {s t : Nat} {p : List Nat}
    (h : nx_shortest_path G s t = Except.ok p) :
    s ∈ node_ids G ∧ t ∈ node_ids G ∧
    p ∈ simple_paths_from G.edges t G.nodes.length [] s := by
  rw [nx_shortest_path] at h
  by_cases hc : s ∈ node_ids G ∧ t ∈ node_ids G
  · rw [if_pos hc] at h
    refine ⟨hc.1, hc.2, ?_⟩
    cases hfm : first_min_by (path_weight G.edges)
        (simple_paths_from G.edges t G.nodes.length [] s) with
    | none => rw [hfm] at h; cases h
    | some p' =>
      rw [hfm] at h
      have : p' = p := Except.ok.inj h
      exact this ▸ (first_min_by_spec hfm).1
  · rw [if_neg hc] at h
    cases h

/-- C10: every route the Path Finder returns is valid for the graph it was
computed on: it is the coordinate image of a node sequence of the graph;
each of its coordinates is the stored coordinate of some graph node; and
every pair of consecutive route elements is the coordinate pair of two nodes
joined by an edge of the graph. -/
theorem route_is_valid (G : RoadGraph) (s t : Nat) (r : List (ℝ × ℝ))
    (hwf : ∀ e ∈ G.edges, e.1 ∈ node_ids G ∧ e.2.1 ∈ node_ids G)
    (hr : route_between G s t = Except.ok r) :
    ∃ p, nx_shortest_path G s t = Except.ok p ∧ r = route_of G p ∧
      (∀ c ∈ r, ∃ nd ∈ G.nodes, c = (nd.2.1, nd.2.2)) ∧
      List.Chain' (fun c d => ∃ a b, isEdge G.edges a b ∧
        c = node_coord G.nodes a ∧ d = node_coord G.nodes b) r := by
  rw [route_between] at hr
  cases hnx : nx_shortest_path G s t with
  | error e =>
    rw [hnx] at hr
    cases hr
  | ok p =>
    rw [hnx] at hr
    have hrp : r = route_of G p := (Except.ok.inj hr).symm
    obtain ⟨hs, ht, hpmem⟩ := nx_ok_mem_enum hnx
    obtain ⟨hph, hpl, hpc⟩ := spf_sound G.edges t G.nodes.length [] s p hpmem
    have hids : ∀ x ∈ p, x ∈ node_ids G :=
      walk_subset_ids G hwf p s hph hs hpc
    refine ⟨p, rfl, hrp, ?_, ?_⟩
    · intro c hc
      rw [hrp, route_of] at hc
      rcases List.mem_map.mp hc with ⟨x, hx, hxe⟩
      obtain ⟨nd, hnd, hcoord⟩ := node_coord_mem (hids x hx)
      exact ⟨nd, hnd, by rw [← hxe, hcoord]⟩
    · rw [hrp, route_of]
      rw [List.chain'_map]
      exact hpc.imp (fun a b hab => ⟨a, b, hab, rfl, rfl⟩)

/-- C10 witness: the concrete two-node one-edge graph yields the route
`[(13, 80), (14, 81)]`, and the validity conclusions hold for it. -/
theorem route_is_valid_witness :
    (∀ e ∈ (⟨[(1, (13.0 : ℝ), (80.0 : ℝ)), (2, (14.0 : ℝ), (81.0 : ℝ))],
        [(1, 2, (100 : ℝ), (100 : ℝ))]⟩ : RoadGraph).edges,
      e.1 ∈ node_ids ⟨[(1, (13.0 : ℝ), (80.0 : ℝ)), (2, (14.0 : ℝ), (81.0 : ℝ))],
        [(1, 2, (100 : ℝ), (100 : ℝ))]⟩ ∧
      e.2.1 ∈ node_ids ⟨[(1, (13.0 : ℝ), (80.0 : ℝ)), (2, (14.0 : ℝ), (81.0 : ℝ))],
        [(1, 2, (100 : ℝ), (100 : ℝ))]⟩) ∧
    route_between ⟨[(1, (13.0 : ℝ), (80.0 : ℝ)), (2, (14.0 : ℝ), (81.0 : ℝ))],
        [(1, 2, (100 : ℝ), (100 : ℝ))]⟩ 1 2
      = Except.ok [((13.0 : ℝ), (80.0 : ℝ)), ((14.0 : ℝ), (81.0 : ℝ))] ∧
    (∃ p, nx_shortest_path ⟨[(1, (13.0 : ℝ), (80.0 : ℝ)), (2, (14.0 : ℝ), (81.0 : ℝ))],
        [(1, 2, (100 : ℝ), (100 : ℝ))]⟩ 1 2 = Except.ok p ∧
      [((13.0 : ℝ), (80.0 : ℝ)), ((14.0 : ℝ), (81.0 : ℝ))]
        = route_of ⟨[(1, (13.0 : ℝ), (80.0 : ℝ)), (2, (14.0 : ℝ), (81.0 : ℝ))],
            [(1, 2, (100 : ℝ), (100 : ℝ))]⟩ p ∧
      (∀ c ∈ [((13.0 : ℝ), (80.0 : ℝ)), ((14.0 : ℝ), (81.0 : ℝ))],
        ∃ nd ∈ [(1, (13.0 : ℝ), (80.0 : ℝ)), (2, (14.0 : ℝ), (81.0 : ℝ))],
          c = (nd.2.1, nd.2.2)) ∧
      List.Chain' (fun c d => ∃ a b,
        isEdge [(1, 2, (100 : ℝ), (100 : ℝ))] a b ∧
        c = node_coord [(1, (13.0 : ℝ), (80.0 : ℝ)), (2, (14.0 : ℝ), (81.0 : ℝ))] a ∧
        d = node_coord [(1, (13.0 : ℝ), (80.0 : ℝ)), (2, (14.0 : ℝ), (81.0 : ℝ))] b)
        [((13.0 : ℝ), (80.0 : ℝ)), ((14.0 : ℝ), (81.0 : ℝ))]) := by
  have hwf : ∀ e ∈ (⟨[(1, (13.0 : ℝ), (80.0 : ℝ)), (2, (14.0 : ℝ), (81.0 : ℝ))],
      [(1, 2, (100 : ℝ), (100 : ℝ))]⟩ : RoadGraph).edges,
      e.1 ∈ node_ids ⟨[(1, (13.0 : ℝ), (80.0 : ℝ)), (2, (14.0 : ℝ), (81.0 : ℝ))],
        [(1, 2, (100 : ℝ), (100 : ℝ))]⟩ ∧
      e.2.1 ∈ node_ids ⟨[(1, (13.0 : ℝ), (80.0 : ℝ)), (2, (14.0 : ℝ), (81.0 : ℝ))],
        [(1, 2, (100 : ℝ), (100 : ℝ))]⟩ := by
    intro e he
    rw [List.mem_singleton] at he
    subst he
    exact ⟨by simp [node_ids], by simp [node_ids]⟩
  have hroute : route_between ⟨[(1, (13.0 : ℝ), (80.0 : ℝ)), (2, (14.0 : ℝ), (81.0 : ℝ))],
      [(1, 2, (100 : ℝ), (100 : ℝ))]⟩ 1 2
      = Except.ok [((13.0 : ℝ), (80.0 : ℝ)), ((14.0 : ℝ), (81.0 : ℝ))] := rfl
  exact ⟨hwf, hroute,
    route_is_valid ⟨[(1, (13.0 : ℝ), (80.0 : ℝ)), (2, (14.0 : ℝ), (81.0 : ℝ))],
      [(1, 2, (100 : ℝ), (100 : ℝ))]⟩ 1 2
      [((13.0 : ℝ), (80.0 : ℝ)), ((14.0 : ℝ), (81.0 : ℝ))] hwf hroute⟩

end FloodGuard
